import Mathlib

/-!
# LogWatcher: a verification of the monitoring engine

Shallow embedding of the LogWatcher repository (`monitor.py`, `dashboard.py`).

* `monitor.py` tails log files: `get_file_id` stats a file to `(st_dev, st_ino,
  st_size)`; `monitor_file` polls this identity, decides between first open /
  rotation / truncation / unchanged, reopens and seeks accordingly, reads one
  line per cycle, matches it against the keyword table, and on the first match
  alerts and appends a record to the alerts log via `log_incident`.
* `dashboard.py` serves the alerts log: `get_alerts` re-reads the file and
  returns its stripped non-empty lines plus a count.

Files are modelled as strings of characters (one character standing for one
byte, so `String.length` plays the role of `st_size` and of byte offsets);
per-poll-cycle inputs (the stat result, the wall-clock timestamp, the outcome
of the alerts-log append) are passed explicitly.
-/

namespace LogWatcher

/-- The `(st_dev, st_ino, st_size)` triple returned by `get_file_id`
(monitor.py lines 151-168); `get_file_id` returning `None` is modelled as
`Option.none` at the use sites. -/
structure FileId where
  dev : Nat
  ino : Nat
  size : Nat
  deriving DecidableEq, Repr

/-- A file on disk: its identity (`st_dev`, `st_ino`) and its current
content.  Its stat size is the length of the content. -/
structure FsFile where
  dev : Nat
  ino : Nat
  content : String
  deriving DecidableEq, Repr

/-- Function `get_file_id` on an existing file: `(stat.st_dev, stat.st_ino, stat.st_size)`
(monitor.py line 166). -/
def get_file_id (f : FsFile) : FileId :=
  ⟨f.dev, f.ino, f.content.length⟩

/-- The five possible outcomes of the per-cycle change detection in
`monitor_file` (monitor.py lines 196-220).  The code expresses them as the
flags `file_rotated` / `file_truncated` plus the `new_file_id is None` and
`current_file_id is None` branches. -/
inductive Verdict where
  | unavailable
  | firstOpen
  | rotated
  | truncated
  | unchanged
  deriving DecidableEq, Repr

/-- The change-detection decision of `monitor_file` (monitor.py lines
196-220), as a function of the remembered `current_file_id` and the freshly
stat'd `new_file_id`:

* `new_file_id is None` → wait for the file (lines 196-203);
* `current_file_id is None` → first open, handled by the rotation branch
  (lines 209-212);
* `new_file_id[0:2] != current_file_id[0:2]` → rotated (lines 213-216);
* `new_file_id[2] < current_file_id[2]` → truncated (lines 217-220);
* otherwise → unchanged, proceed to read. -/
def detectChange : Option FileId → Option FileId → Verdict
  | _, none => .unavailable
  | none, some _ => .firstOpen
  | some cid, some nid =>
    if nid.dev ≠ cid.dev ∨ nid.ino ≠ cid.ino then .rotated
    else if nid.size < cid.size then .truncated
    else .unchanged

/-- C1: for every pair of a previous file identity (possibly absent) and a
freshly stat'd identity (possibly absent), the change-detection decision is:
`unavailable` when the fresh stat is absent; `firstOpen` when there is no
prior identity; `rotated` when device or inode differ from the prior
identity; `truncated` when device and inode match and the fresh size is
strictly smaller; `unchanged` when device and inode match and the fresh size
is at least the prior size. -/
theorem change_detection_cases (prev fresh : Option FileId) :
    (fresh = none → detectChange prev fresh = .unavailable) ∧
    (fresh ≠ none → prev = none → detectChange prev fresh = .firstOpen) ∧
    (∀ c n, prev = some c → fresh = some n → (n.dev ≠ c.dev ∨ n.ino ≠ c.ino) →
      detectChange prev fresh = .rotated) ∧
    (∀ c n, prev = some c → fresh = some n → n.dev = c.dev → n.ino = c.ino →
      n.size < c.size → detectChange prev fresh = .truncated) ∧
    (∀ c n, prev = some c → fresh = some n → n.dev = c.dev → n.ino = c.ino →
      c.size ≤ n.size → detectChange prev fresh = .unchanged) := by
  refine ⟨?_, ?_, ?_, ?_, ?_⟩
  · rintro rfl
    cases prev <;> rfl
  · intro hf hp
    subst hp
    cases fresh with
    | none => exact absurd rfl hf
    | some n => rfl
  · rintro c n rfl rfl hne
    simp only [detectChange]
    rw [if_pos hne]
  · rintro c n rfl rfl hdev hino hsz
    simp only [detectChange]
    rw [if_neg (by simp [hdev, hino]), if_pos hsz]
  · rintro c n rfl rfl hdev hino hsz
    simp only [detectChange]
    rw [if_neg (by simp [hdev, hino]), if_neg (not_lt.mpr hsz)]

/-- Witness for `change_detection_cases` at concrete identities, one per
verdict. -/
theorem change_detection_cases_witness :
    detectChange (some ⟨1, 2, 5⟩) none = .unavailable ∧
    detectChange none (some ⟨1, 2, 5⟩) = .firstOpen ∧
    detectChange (some ⟨1, 2, 5⟩) (some ⟨1, 3, 5⟩) = .rotated ∧
    detectChange (some ⟨1, 2, 5⟩) (some ⟨1, 2, 3⟩) = .truncated ∧
    detectChange (some ⟨1, 2, 5⟩) (some ⟨1, 2, 7⟩) = .unchanged :=
  ⟨(change_detection_cases (some ⟨1, 2, 5⟩) none).1 rfl,
   (change_detection_cases none (some ⟨1, 2, 5⟩)).2.1 (by simp) rfl,
   (change_detection_cases (some ⟨1, 2, 5⟩) (some ⟨1, 3, 5⟩)).2.2.1
     ⟨1, 2, 5⟩ ⟨1, 3, 5⟩ rfl rfl (by decide),
   (change_detection_cases (some ⟨1, 2, 5⟩) (some ⟨1, 2, 3⟩)).2.2.2.1
     ⟨1, 2, 5⟩ ⟨1, 2, 3⟩ rfl rfl rfl rfl (by decide),
   (change_detection_cases (some ⟨1, 2, 5⟩) (some ⟨1, 2, 7⟩)).2.2.2.2
     ⟨1, 2, 5⟩ ⟨1, 2, 7⟩ rfl rfl rfl rfl (by decide)⟩

/-! ## Python string and file primitives -/

/-- Python's substring containment on character lists: `hasSub needle hay`
is `True` exactly when `needle` occurs contiguously inside `hay`. -/
def hasSub : List Char → List Char → Bool
  | needle, [] => needle.isEmpty
  | needle, c :: t => needle.isPrefixOf (c :: t) || hasSub needle t

/-- Python's `needle in hay` for strings (case-sensitive substring test),
used by the keyword check `if keyword in line` (monitor.py line 263). -/
def pyContains (hay needle : String) : Bool :=
  hasSub needle.data hay.data

/-- One step of Python's line splitting: consume characters up to and
including the first newline, returning that line and the rest. -/
def takeLine : List Char → List Char × List Char
  | [] => ([], [])
  | c :: cs =>
    if c = '\n' then ([c], cs)
    else
      let (l, r) := takeLine cs
      (c :: l, r)

/-- Worker for `pyLines`: `acc` holds the (reversed) characters of the
line read so far. -/
def pyLinesAux : List Char → List Char → List String
  | [], acc => if acc.isEmpty then [] else [String.mk acc.reverse]
  | c :: cs, acc =>
    if c = '\n' then String.mk (acc.reverse ++ ['\n']) :: pyLinesAux cs []
    else pyLinesAux cs (c :: acc)

/-- Python's iteration over the lines of a text file (`for line in f`):
split at every newline, keeping the newline at the end of each line; a final
piece without a newline is still a line; an empty tail is no line. -/
def pyLines (content : String) : List String :=
  pyLinesAux content.data []

/-- Function `count_file_lines` (monitor.py lines 131-148): the number of lines Python
iterates over the file's content (`for count, _ in enumerate(f, 1)`). -/
def count_file_lines (content : String) : Nat :=
  (pyLines content).length

/-- Python's `f.readline()` on a file with the given content, when the
handle's offset is `pos`: `none` models the empty string returned at
end-of-file; otherwise the next line (up to and including a newline, or to
end-of-file) together with the new offset. -/
def readlineAt (content : String) (pos : Nat) : Option (String × Nat) :=
  match content.data.drop pos with
  | [] => none
  | c :: cs =>
    let (l, _) := takeLine (c :: cs)
    some (String.mk l, pos + l.length)

/-- A character Python's `str.strip()` removes: ASCII whitespace. -/
def isPyWs (c : Char) : Bool :=
  c = ' ' || c = '\t' || c = '\n' || c = '\r' || c = '\x0b' || c = '\x0c'

/-- Python's `str.strip()`: drop leading and trailing whitespace. -/
def pyStrip (s : String) : String :=
  String.mk (((s.data.dropWhile isPyWs).reverse.dropWhile isPyWs).reverse)

/-- Python's `line.endswith(chr(10))` (monitor.py line 125): the last
character is a newline. -/
def endsWithNewline (s : String) : Bool :=
  match s.data.getLast? with
  | some c => c = '\n'
  | none => false

/-! ## Alert formatting and the incident sink -/

/-- The console alert line printed by `alert_console` (monitor.py line 108):
`[<severity>] <line stripped>`.  (The logging framework prepends its own
timestamp; the `timestamp` argument of `alert_console` is unused by the
code.) -/
def alert_console (severity line : String) : String :=
  "[" ++ severity ++ "] " ++ pyStrip line

/-- The record `log_incident` writes for one incident (monitor.py lines
124-126): `[<timestamp>] [<severity>] <file>:<lineno> <line>`, with a newline
appended when the line does not already end in one. -/
def alertsLogRecord (timestamp severity file : String) (lineno : Nat)
    (line : String) : String :=
  "[" ++ timestamp ++ "] [" ++ severity ++ "] " ++ file ++ ":" ++
    Nat.repr lineno ++ " " ++ line ++
    (if endsWithNewline line then "" else "\n")

/-- Function `log_incident` (monitor.py lines 111-128).  `w` is the outcome of the
underlying filesystem append (`open(..., 'a')` plus the writes), `log` the
lines of `alerts/alerts.log`, `errlog` the process's own error log.  On
success the record is appended; on failure the exception is caught, the
alerts log is left unchanged and the failure is logged — `log_incident`
itself always returns normally. -/
def log_incident (w : Except String Unit) (log errlog : List String)
    (timestamp severity file : String) (lineno : Nat) (line : String) :
    List String × List String :=
  match w with
  | .ok _ => (log ++ [alertsLogRecord timestamp severity file lineno line], errlog)
  | .error e => (log, errlog ++ ["Failed to write to alerts log: " ++ e])

/-! ## The tail engine (`monitor_file`, monitor.py lines 171-283)

One iteration of the `while not shutdown_requested` loop is modelled as a
step function on the engine's state. The iteration's interaction with the
outside world — the stat of the path, `datetime.now()`, and the outcome of
the alerts-log append — is the step's input. -/

/-- One incident, as handed to `log_incident` (monitor.py lines 264-271):
the classification of one matched line.  Recorded here whether or not the
sink write succeeds; the persisted alerts log is tracked separately. -/
structure Incident where
  timestamp : String
  severity : String
  source : String
  lineno : Nat
  raw : String
  deriving DecidableEq, Repr

/-- The local state of `monitor_file` (monitor.py lines 185-188) together
with the observable output channels: `file_handle` (its read offset, `none`
when closed), `current_file_id`, `last_position`, `lineno`; `incidents`
(every `log_incident` call, i.e. every emitted incident), `console` (every
`alert_console` line) and `alertsLog` (the persisted `alerts/alerts.log`
lines). -/
structure TailState where
  handle : Option Nat
  currentId : Option FileId
  lastPos : Nat
  lineno : Nat
  incidents : List Incident
  console : List String
  alertsLog : List String
  deriving DecidableEq, Repr

/-- The state at the top of `monitor_file`: no handle, no identity,
position and line counter zero (monitor.py lines 185-188). -/
def initState : TailState :=
  ⟨none, none, 0, 0, [], [], []⟩

/-- The per-cycle input from the outside world: the file currently at the
monitored path (`none` when the path does not resolve), the wall-clock
timestamp `datetime.now()` would format, and the outcome the filesystem
gives the alerts-log append of this cycle. -/
structure StepIn where
  fs : Option FsFile
  timestamp : String
  sink : Except String Unit
  deriving Repr

/-- The keyword loop on one read line (monitor.py lines 261-274): on the
first keyword contained in the line — dictionary iteration order — alert
(console, when configured) and call `log_incident`, then `break`; on no
match, do nothing. -/
def processMatch (keywords : List (String × String)) (methods : List String)
    (path timestamp : String) (w : Except String Unit) (lineno : Nat)
    (line : String) (s : TailState) : TailState :=
  match keywords.find? (fun p => pyContains line p.1) with
  | none => s
  | some p =>
    let s1 := if methods.contains "console"
      then { s with console := s.console ++ [alert_console p.2 line] }
      else s
    { s1 with
      alertsLog := (log_incident w s1.alertsLog [] timestamp p.2 path lineno line).1,
      incidents := s1.incidents ++ [⟨timestamp, p.2, path, lineno, line⟩] }

/-- The read attempt of one cycle (monitor.py lines 249-274): when a handle
is open, `readline()`; an empty result means no new data (sleep and retry
next cycle); otherwise advance `lineno` and `last_position` and run the
keyword loop. -/
def readPhase (keywords : List (String × String)) (methods : List String)
    (path timestamp : String) (w : Except String Unit) (f : FsFile)
    (s : TailState) : TailState :=
  match s.handle with
  | none => s
  | some pos =>
    match readlineAt f.content pos with
    | none => s
    | some (line, newPos) =>
      processMatch keywords methods path timestamp w (s.lineno + 1) line
        { s with handle := some newPos, lastPos := newPos,
                 lineno := s.lineno + 1 }

/-- The reopen logic of one cycle (monitor.py lines 205-247), given that the
path resolves to `f`: on first open or rotation, reopen, seek to
end-of-file, remember the new identity and set `lineno` to the file's total
line count; on truncation, reopen at offset 0 with `lineno = 0`; otherwise
leave the state alone.  (Reopening the path that was just stat'd succeeds in
this model.) -/
def reopenPhase (f : FsFile) (s : TailState) : TailState :=
  match detectChange s.currentId (some (get_file_id f)) with
  | .firstOpen =>
    { s with handle := some f.content.length,
             currentId := some (get_file_id f),
             lastPos := f.content.length,
             lineno := count_file_lines f.content }
  | .rotated =>
    { s with handle := some f.content.length,
             currentId := some (get_file_id f),
             lastPos := f.content.length,
             lineno := count_file_lines f.content }
  | .truncated =>
    { s with handle := some 0,
             currentId := some (get_file_id f),
             lastPos := 0,
             lineno := 0 }
  | _ => s

/-- One iteration of `monitor_file`'s loop (monitor.py lines 191-274): stat
the path; if it does not resolve, close any handle and wait; otherwise run
the reopen logic and then the read attempt of the same iteration. -/
def monitor_file_step (keywords : List (String × String))
    (methods : List String) (path : String) (inp : StepIn) (s : TailState) :
    TailState :=
  match inp.fs with
  | none => { s with handle := none }
  | some f => readPhase keywords methods path inp.timestamp inp.sink f
      (reopenPhase f s)

/-- The function `monitor_file` run over a finite window of poll cycles with the given
per-cycle inputs (no shutdown is requested inside the window). -/
def monitor_file_run (keywords : List (String × String))
    (methods : List String) (path : String) (inputs : List StepIn)
    (s : TailState) : TailState :=
  inputs.foldl (fun t i => monitor_file_step keywords methods path i t) s

/-! ## Basic lemmas about the engine's step -/

theorem processMatch_handle (keywords : List (String × String))
    (methods : List String) (path ts : String) (w : Except String Unit)
    (n : Nat) (line : String) (s : TailState) :
    (processMatch keywords methods path ts w n line s).handle = s.handle := by
  unfold processMatch
  cases keywords.find? (fun p => pyContains line p.1) with
  | none => rfl
  | some p => by_cases h : "console" ∈ methods <;> simp [h]

theorem processMatch_currentId (keywords : List (String × String))
    (methods : List String) (path ts : String) (w : Except String Unit)
    (n : Nat) (line : String) (s : TailState) :
    (processMatch keywords methods path ts w n line s).currentId = s.currentId := by
  unfold processMatch
  cases keywords.find? (fun p => pyContains line p.1) with
  | none => rfl
  | some p => by_cases h : "console" ∈ methods <;> simp [h]

theorem processMatch_lastPos (keywords : List (String × String))
    (methods : List String) (path ts : String) (w : Except String Unit)
    (n : Nat) (line : String) (s : TailState) :
    (processMatch keywords methods path ts w n line s).lastPos = s.lastPos := by
  unfold processMatch
  cases keywords.find? (fun p => pyContains line p.1) with
  | none => rfl
  | some p => by_cases h : "console" ∈ methods <;> simp [h]

theorem processMatch_lineno (keywords : List (String × String))
    (methods : List String) (path ts : String) (w : Except String Unit)
    (n : Nat) (line : String) (s : TailState) :
    (processMatch keywords methods path ts w n line s).lineno = s.lineno := by
  unfold processMatch
  cases keywords.find? (fun p => pyContains line p.1) with
  | none => rfl
  | some p => by_cases h : "console" ∈ methods <;> simp [h]

/-- The keyword loop appends exactly one incident when some keyword is
contained in the line (the first one, `List.find?` order), and none
otherwise. -/
theorem processMatch_incidents (keywords : List (String × String))
    (methods : List String) (path ts : String) (w : Except String Unit)
    (n : Nat) (line : String) (s : TailState) :
    (processMatch keywords methods path ts w n line s).incidents =
      s.incidents ++
        (match keywords.find? (fun p => pyContains line p.1) with
          | none => []
          | some p => [⟨ts, p.2, path, n, line⟩]) := by
  unfold processMatch
  cases keywords.find? (fun p => pyContains line p.1) with
  | none => simp
  | some p => by_cases h : "console" ∈ methods <;> simp [h]

theorem processMatch_console (keywords : List (String × String))
    (methods : List String) (path ts : String) (w : Except String Unit)
    (n : Nat) (line : String) (s : TailState) :
    (processMatch keywords methods path ts w n line s).console =
      s.console ++
        (match keywords.find? (fun p => pyContains line p.1) with
          | none => []
          | some p =>
            if methods.contains "console" then [alert_console p.2 line] else []) := by
  unfold processMatch
  cases keywords.find? (fun p => pyContains line p.1) with
  | none => simp
  | some p => by_cases h : "console" ∈ methods <;> simp [h]

theorem processMatch_alertsLog (keywords : List (String × String))
    (methods : List String) (path ts : String) (w : Except String Unit)
    (n : Nat) (line : String) (s : TailState) :
    (processMatch keywords methods path ts w n line s).alertsLog =
      match keywords.find? (fun p => pyContains line p.1) with
      | none => s.alertsLog
      | some p => (log_incident w s.alertsLog [] ts p.2 path n line).1 := by
  unfold processMatch
  cases keywords.find? (fun p => pyContains line p.1) with
  | none => simp
  | some p => by_cases h : "console" ∈ methods <;> simp [h]

/-- A `readline()` at end-of-file returns no line. -/
theorem readlineAt_at_end (c : String) : readlineAt c c.length = none := by
  have h : c.data.drop c.length = [] := List.drop_length c.data
  simp [readlineAt, h]

/-- A `readline()` past or at the end of the remaining data returns no
line. -/
theorem readlineAt_of_drop_nil (c : String) (p : Nat)
    (h : c.data.drop p = []) : readlineAt c p = none := by
  simp [readlineAt, h]

/-- Applying `takeLine` to a complete line (no interior newline, one final newline)
followed by anything returns exactly that line. -/
theorem takeLine_whole (body rest : List Char) (hb : '\n' ∉ body) :
    takeLine (body ++ '\n' :: rest) = (body ++ ['\n'], rest) := by
  induction body with
  | nil => simp [takeLine]
  | cons d ds ih =>
    have hd : ¬ d = '\n' := fun h => hb (h ▸ List.mem_cons_self d ds)
    have hds : '\n' ∉ ds := fun h => hb (List.mem_cons_of_mem d h)
    simp only [List.cons_append, takeLine, if_neg hd, List.append_eq, ih hds]

/-- A `readline()` when the data remaining after `pos` starts with a complete
line returns exactly that line and advances by its length. -/
theorem readlineAt_whole (c : String) (p : Nat) (body rest : List Char)
    (hb : '\n' ∉ body) (h : c.data.drop p = body ++ '\n' :: rest) :
    readlineAt c p =
      some (String.mk (body ++ ['\n']), p + (body.length + 1)) := by
  cases body with
  | nil => simp [readlineAt, h, takeLine]
  | cons d ds =>
    have hd : ¬ d = '\n' := fun hx => hb (hx ▸ List.mem_cons_self d ds)
    have hds : '\n' ∉ ds := fun hx => hb (List.mem_cons_of_mem d hx)
    have ht : takeLine (d :: (ds ++ '\n' :: rest)) = ((d :: ds) ++ ['\n'], rest) := by
      have := takeLine_whole (d :: ds) rest hb
      simpa using this
    simp only [List.cons_append] at h
    simp [readlineAt, h, ht]

/-! ## C2: the seek / line-counter policy on reopen -/

/-- C2: when the verdict is first-open or rotated, the engine reopens,
seeks to end-of-file and sets the line counter to the file's current total
line count — the iteration reads nothing, so no pre-existing line is
classified; when the verdict is truncated, the engine reopens at byte
offset 0 with the line counter reset to 0, so the same iteration reads the
truncated file's remaining content starting at line number 1. -/
theorem reopen_policy (keywords : List (String × String))
    (methods : List String) (path ts : String) (w : Except String Unit)
    (f : FsFile) (s : TailState) :
    ((detectChange s.currentId (some (get_file_id f)) = .firstOpen ∨
      detectChange s.currentId (some (get_file_id f)) = .rotated) →
      reopenPhase f s =
        { s with handle := some f.content.length,
                 currentId := some (get_file_id f),
                 lastPos := f.content.length,
                 lineno := count_file_lines f.content } ∧
      monitor_file_step keywords methods path ⟨some f, ts, w⟩ s =
        { s with handle := some f.content.length,
                 currentId := some (get_file_id f),
                 lastPos := f.content.length,
                 lineno := count_file_lines f.content }) ∧
    (detectChange s.currentId (some (get_file_id f)) = .truncated →
      reopenPhase f s =
        { s with handle := some 0,
                 currentId := some (get_file_id f),
                 lastPos := 0,
                 lineno := 0 } ∧
      (f.content = "" →
        monitor_file_step keywords methods path ⟨some f, ts, w⟩ s =
          { s with handle := some 0,
                   currentId := some (get_file_id f),
                   lastPos := 0,
                   lineno := 0 }) ∧
      (f.content ≠ "" →
        (monitor_file_step keywords methods path ⟨some f, ts, w⟩ s).lineno = 1)) := by
  constructor
  · intro h
    have hre : reopenPhase f s =
        { s with handle := some f.content.length,
                 currentId := some (get_file_id f),
                 lastPos := f.content.length,
                 lineno := count_file_lines f.content } := by
      rcases h with h | h <;> simp [reopenPhase, h]
    refine ⟨hre, ?_⟩
    simp only [monitor_file_step, hre]
    simp [readPhase, readlineAt_at_end]
  · intro h
    have hre : reopenPhase f s =
        { s with handle := some 0,
                 currentId := some (get_file_id f),
                 lastPos := 0,
                 lineno := 0 } := by
      simp [reopenPhase, h]
    refine ⟨hre, ?_, ?_⟩
    · intro hc
      have hnil : f.content.data.drop 0 = [] := by
        simp [hc, show ("" : String).data = [] from rfl]
      simp only [monitor_file_step, hre]
      simp [readPhase, readlineAt_of_drop_nil _ _ hnil]
    · intro hc
      have hnil : f.content.data ≠ [] := by
        intro hx
        apply hc
        cases hcc : f.content with
        | mk d => rw [hcc] at hx; simp at hx; simp [hx]
      simp only [monitor_file_step, hre]
      cases hd : f.content.data.drop 0 with
      | nil => exact absurd (by simpa using hd) hnil
      | cons d ds =>
        simp only [readPhase, readlineAt, hd]
        rw [processMatch_lineno]

/-- Witness for `reopen_policy`: a rotation onto a two-line file seeks to
its end with the line counter at 2, and a truncation down to one line
re-reads that line as line number 1. -/
theorem reopen_policy_witness :
    (detectChange (TailState.mk (some 10) (some ⟨1, 2, 8⟩) 10 2 [] [] []).currentId
        (some (get_file_id ⟨1, 9, "aa\nbb\n"⟩)) = .firstOpen ∨
     detectChange (TailState.mk (some 10) (some ⟨1, 2, 8⟩) 10 2 [] [] []).currentId
        (some (get_file_id ⟨1, 9, "aa\nbb\n"⟩)) = .rotated) ∧
    (monitor_file_step [("ERROR", "Critical")] ["console"] "a.log"
        ⟨some ⟨1, 9, "aa\nbb\n"⟩, "ts", Except.ok ()⟩
        (TailState.mk (some 10) (some ⟨1, 2, 8⟩) 10 2 [] [] [])).lineno = 2 ∧
    detectChange (TailState.mk (some 6) (some ⟨1, 2, 8⟩) 6 2 [] [] []).currentId
        (some (get_file_id ⟨1, 2, "cc\n"⟩)) = .truncated ∧
    (monitor_file_step [("ERROR", "Critical")] ["console"] "a.log"
        ⟨some ⟨1, 2, "cc\n"⟩, "ts", Except.ok ()⟩
        (TailState.mk (some 6) (some ⟨1, 2, 8⟩) 6 2 [] [] [])).lineno = 1 := by
  have h1 := (reopen_policy [("ERROR", "Critical")] ["console"] "a.log" "ts"
    (Except.ok ()) ⟨1, 9, "aa\nbb\n"⟩
    (TailState.mk (some 10) (some ⟨1, 2, 8⟩) 10 2 [] [] [])).1
    (Or.inr (by decide))
  have h2 := (reopen_policy [("ERROR", "Critical")] ["console"] "a.log" "ts"
    (Except.ok ()) ⟨1, 2, "cc\n"⟩
    (TailState.mk (some 6) (some ⟨1, 2, 8⟩) 6 2 [] [] [])).2
    (by decide)
  refine ⟨Or.inr (by decide), ?_, by decide, ?_⟩
  · rw [h1.2]; rfl
  · exact h2.2.2 (by decide)

/-! ## C3: appended lines and the incidents they produce -/

/-- A complete appended text line: it ends in a newline and contains no
other newline (what a line-oriented writer appends to a log). -/
def wholeLine (l : String) : Bool :=
  l.data.count '\n' == 1 && endsWithNewline l

/-- A complete line is a newline-free body followed by one newline. -/
theorem wholeLine_decomp (l : String) (h : wholeLine l = true) :
    ∃ body : List Char, '\n' ∉ body ∧ l.data = body ++ ['\n'] := by
  have h1 : l.data.count '\n' = 1 := by
    have := ((Bool.and_eq_true _ _).mp h).1
    simpa using this
  have h2 : endsWithNewline l = true := ((Bool.and_eq_true _ _).mp h).2
  cases hg : l.data.getLast? with
  | none => simp [endsWithNewline, hg] at h2
  | some ch =>
    have hch : ch = '\n' := by
      have : decide (ch = '\n') = true := by
        simpa [endsWithNewline, hg] using h2
      exact of_decide_eq_true this
    subst hch
    have hsplit : l.data.dropLast ++ ['\n'] = l.data :=
      List.dropLast_append_getLast? _ (by simpa using hg)
    refine ⟨l.data.dropLast, ?_, hsplit.symm⟩
    have hcount : l.data.dropLast.count '\n' + 1 = 1 := by
      have := congrArg (List.count '\n') hsplit
      simpa [List.count_append, h1] using this
    have : l.data.dropLast.count '\n' = 0 := by omega
    exact List.count_eq_zero.mp this

/-- Concatenation of appended lines into new file content. -/
def strConcat : List String → String
  | [] => ""
  | l :: rest => l ++ strConcat rest

/-- The incidents the appended lines should produce: the `j`-th appended
line, when some keyword is contained in it, yields one incident numbered
`n + j + 1` carrying the first matching keyword's severity; a line with no
matching keyword yields none. -/
def expectedIncidents (keywords : List (String × String)) (path ts : String) :
    List String → Nat → List Incident
  | [], _ => []
  | l :: rest, n =>
    (match keywords.find? (fun p => pyContains l p.1) with
      | none => []
      | some p => [⟨ts, p.2, path, n + 1, l⟩]) ++
    expectedIncidents keywords path ts rest (n + 1)

theorem expectedIncidents_lineno_gt (keywords : List (String × String))
    (path ts : String) :
    ∀ (ls : List String) (n : Nat) (inc : Incident),
      inc ∈ expectedIncidents keywords path ts ls n → n < inc.lineno := by
  intro ls
  induction ls with
  | nil => intro n inc h; simp [expectedIncidents] at h
  | cons l rest ih =>
    intro n inc h
    simp only [expectedIncidents, List.mem_append] at h
    rcases h with h | h
    · cases hf : keywords.find? (fun p => pyContains l p.1) with
      | none => rw [hf] at h; simp at h
      | some p =>
        rw [hf] at h
        simp only [List.mem_singleton] at h
        subst h
        exact Nat.lt_succ_self n
    · exact Nat.lt_of_succ_lt (ih (n + 1) inc h)

theorem expectedIncidents_chain (keywords : List (String × String))
    (path ts : String) :
    ∀ (ls : List String) (n : Nat),
      List.Chain' (fun a b => a.lineno < b.lineno)
        (expectedIncidents keywords path ts ls n) := by
  intro ls
  induction ls with
  | nil => intro n; simp [expectedIncidents]
  | cons l rest ih =>
    intro n
    simp only [expectedIncidents]
    cases hf : keywords.find? (fun p => pyContains l p.1) with
    | none => simpa using ih (n + 1)
    | some p =>
      simp only [List.singleton_append]
      rw [List.chain'_cons']
      refine ⟨?_, ih (n + 1)⟩
      intro y hy
      have hmem : y ∈ expectedIncidents keywords path ts rest (n + 1) :=
        List.mem_of_mem_head? hy
      exact expectedIncidents_lineno_gt keywords path ts rest (n + 1) y hmem

theorem expectedIncidents_mem_matched (keywords : List (String × String))
    (path ts : String) :
    ∀ (ls : List String) (n : Nat) (inc : Incident),
      inc ∈ expectedIncidents keywords path ts ls n →
      (keywords.find? (fun p => pyContains inc.raw p.1)).isSome = true := by
  intro ls
  induction ls with
  | nil => intro n inc h; simp [expectedIncidents] at h
  | cons l rest ih =>
    intro n inc h
    simp only [expectedIncidents, List.mem_append] at h
    rcases h with h | h
    · cases hf : keywords.find? (fun p => pyContains l p.1) with
      | none => rw [hf] at h; simp at h
      | some p =>
        rw [hf] at h
        simp only [List.mem_singleton] at h
        subst h
        simp [hf]
    · exact ih (n + 1) inc h

theorem expectedIncidents_count (keywords : List (String × String))
    (path ts : String) :
    ∀ (ls : List String) (n : Nat) (j : Nat) (hj : j < ls.length),
      ((expectedIncidents keywords path ts ls n).filter
          (fun inc => inc.lineno == n + j + 1)).length =
        if (keywords.find? (fun p => pyContains (ls.get ⟨j, hj⟩) p.1)).isSome
        then 1 else 0 := by
  intro ls
  induction ls with
  | nil => intro n j hj; simp at hj
  | cons l rest ih =>
    intro n j hj
    simp only [expectedIncidents, List.filter_append, List.length_append]
    cases j with
    | zero =>
      have hrest : (expectedIncidents keywords path ts rest (n + 1)).filter
          (fun inc => inc.lineno == n + 0 + 1) = [] := by
        rw [List.filter_eq_nil_iff]
        intro inc hmem
        have := expectedIncidents_lineno_gt keywords path ts rest (n + 1) inc hmem
        simp only [beq_iff_eq]
        omega
      rw [hrest]
      cases hf : keywords.find? (fun p => pyContains l p.1) <;> simp [List.get, hf]
    | succ j' =>
      have hj' : j' < rest.length := by simpa using hj
      have hhead : ∀ L : List Incident,
          (L = [] ∨ ∃ p : String × String, L = [⟨ts, p.2, path, n + 1, l⟩]) →
          L.filter (fun inc => inc.lineno == n + (j' + 1) + 1) = [] := by
        intro L hL
        rcases hL with rfl | ⟨p, rfl⟩
        · rfl
        · rw [List.filter_eq_nil_iff]
          intro inc hmem
          simp only [List.mem_singleton] at hmem
          subst hmem
          simp only [beq_iff_eq]
          omega
      have ihj := ih (n + 1) j' hj'
      have harith : n + 1 + j' + 1 = n + (j' + 1) + 1 := by omega
      rw [harith] at ihj
      cases hf : keywords.find? (fun p => pyContains l p.1) with
      | none =>
        rw [hhead _ (Or.inl rfl)]
        simpa using ihj
      | some p =>
        rw [hhead _ (Or.inr ⟨p, rfl⟩)]
        simpa using ihj

/-- One poll cycle in the steady state: the identity matches and the data
after the read offset starts with a complete line, so the cycle reads
exactly that line, advances the counter and offset, and runs the keyword
loop on it. -/
theorem monitor_file_step_read (keywords : List (String × String))
    (methods : List String) (path ts : String) (w : Except String Unit)
    (d i sz : Nat) (c : String) (s : TailState) (p : Nat)
    (body rest : List Char)
    (hid : s.currentId = some ⟨d, i, sz⟩) (hsz : sz ≤ c.length)
    (hh : s.handle = some p) (hb : '\n' ∉ body)
    (hdrop : c.data.drop p = body ++ '\n' :: rest) :
    monitor_file_step keywords methods path ⟨some ⟨d, i, c⟩, ts, w⟩ s =
      processMatch keywords methods path ts w (s.lineno + 1)
        (String.mk (body ++ ['\n']))
        { s with handle := some (p + (body.length + 1)),
                 lastPos := p + (body.length + 1),
                 lineno := s.lineno + 1 } := by
  have hv : detectChange s.currentId (some (get_file_id ⟨d, i, c⟩)) =
      .unchanged := by
    rw [hid]
    simp only [detectChange, get_file_id]
    rw [if_neg (by simp), if_neg (not_lt.mpr hsz)]
  have hread := readlineAt_whole c p body rest hb hdrop
  simp only [monitor_file_step, reopenPhase, hv, readPhase, hh, hread]

/-- The steady-state run: with the handle `p` characters into content `c`,
the remainder of `c` being exactly the appended lines `ls`, running one
poll cycle per line appends exactly the expected incidents. -/
theorem monitor_file_run_steady (keywords : List (String × String))
    (methods : List String) (path ts : String) (w : Except String Unit)
    (d i : Nat) (c : String) :
    ∀ (ls : List String) (sz p : Nat) (s : TailState),
    s.currentId = some ⟨d, i, sz⟩ → sz ≤ c.length → s.handle = some p →
    (∀ l ∈ ls, wholeLine l = true) →
    c.data.drop p = (strConcat ls).data →
    (monitor_file_run keywords methods path
        (List.replicate ls.length ⟨some ⟨d, i, c⟩, ts, w⟩) s).incidents =
      s.incidents ++ expectedIncidents keywords path ts ls s.lineno := by
  intro ls
  induction ls with
  | nil =>
    intro sz p s _ _ _ _ _
    simp [monitor_file_run, expectedIncidents]
  | cons l rest ih =>
    intro sz p s hid hsz hh hls hdrop
    obtain ⟨body, hb, hldata⟩ := wholeLine_decomp l (hls l (List.mem_cons_self l rest))
    have hdrop' : c.data.drop p = body ++ '\n' :: (strConcat rest).data := by
      rw [hdrop]
      show (l ++ strConcat rest).data = _
      rw [String.data_append, hldata]
      simp
    have hstep := monitor_file_step_read keywords methods path ts w d i sz c s p
      body (strConcat rest).data hid hsz hh hb hdrop'
    have hmkl : String.mk (body ++ ['\n']) = l := by
      rw [← hldata]
    have hlen : body.length + 1 = l.length := by
      show _ = l.data.length
      rw [hldata]
      simp
    set s1 := processMatch keywords methods path ts w (s.lineno + 1) l
      { s with handle := some (p + (body.length + 1)),
               lastPos := p + (body.length + 1),
               lineno := s.lineno + 1 } with hs1
    have hrun : monitor_file_run keywords methods path
        (List.replicate (l :: rest).length ⟨some ⟨d, i, c⟩, ts, w⟩) s =
        monitor_file_run keywords methods path
          (List.replicate rest.length ⟨some ⟨d, i, c⟩, ts, w⟩) s1 := by
    -- one cycle peels off the head line
      simp only [List.length_cons, List.replicate_succ, monitor_file_run,
        List.foldl_cons]
      rw [show monitor_file_step keywords methods path ⟨some ⟨d, i, c⟩, ts, w⟩ s
            = s1 from by rw [hstep, hmkl]]
    rw [hrun]
    have h1 : s1.currentId = some ⟨d, i, sz⟩ := by
      rw [hs1, processMatch_currentId]
      exact hid
    have h2 : s1.handle = some (p + (body.length + 1)) := by
      rw [hs1, processMatch_handle]
    have h3 : ∀ x ∈ rest, wholeLine x = true :=
      fun x hx => hls x (List.mem_cons_of_mem l hx)
    have h4 : c.data.drop (p + (body.length + 1)) = (strConcat rest).data := by
      rw [← List.drop_drop, hdrop']
      have : body ++ '\n' :: (strConcat rest).data =
          (body ++ ['\n']) ++ (strConcat rest).data := by simp
      rw [this, show body.length + 1 = (body ++ ['\n']).length from by simp,
        List.drop_left]
    have := ih sz (p + (body.length + 1)) s1 h1 hsz h2 h3 h4
    rw [this]
    have hinc : s1.incidents = s.incidents ++
        (match keywords.find? (fun q => pyContains l q.1) with
          | none => []
          | some q => [⟨ts, q.2, path, s.lineno + 1, l⟩]) := by
      rw [hs1, processMatch_incidents]
    have hlineno : s1.lineno = s.lineno + 1 := by
      rw [hs1, processMatch_lineno]
    rw [hinc, hlineno, List.append_assoc]
    rfl

/-- C3: for every sequence of complete lines appended to a monitored file
after monitoring begins (first poll opens the file with content `c0`; the
appended lines are then available), each appended line containing at least
one configured keyword produces exactly one recorded incident, the
incidents appear in strictly increasing line-number order, and an appended
line containing no configured keyword produces no incident. -/
theorem appended_lines_classification (keywords : List (String × String))
    (methods : List String) (path ts : String) (w : Except String Unit)
    (d i : Nat) (c0 : String) (ls : List String)
    (hls : ∀ l ∈ ls, wholeLine l = true) :
    (monitor_file_run keywords methods path
        (⟨some ⟨d, i, c0⟩, ts, w⟩ ::
          List.replicate ls.length ⟨some ⟨d, i, c0 ++ strConcat ls⟩, ts, w⟩)
        initState).incidents =
      expectedIncidents keywords path ts ls (count_file_lines c0) ∧
    List.Chain' (fun a b => a.lineno < b.lineno)
      (monitor_file_run keywords methods path
        (⟨some ⟨d, i, c0⟩, ts, w⟩ ::
          List.replicate ls.length ⟨some ⟨d, i, c0 ++ strConcat ls⟩, ts, w⟩)
        initState).incidents ∧
    (∀ (j : Nat) (hj : j < ls.length),
      ((monitor_file_run keywords methods path
          (⟨some ⟨d, i, c0⟩, ts, w⟩ ::
            List.replicate ls.length ⟨some ⟨d, i, c0 ++ strConcat ls⟩, ts, w⟩)
          initState).incidents.filter
            (fun inc => inc.lineno == count_file_lines c0 + j + 1)).length =
        if (keywords.find? (fun p => pyContains (ls.get ⟨j, hj⟩) p.1)).isSome
        then 1 else 0) ∧
    (∀ l : String, keywords.find? (fun p => pyContains l p.1) = none →
      ∀ inc ∈ (monitor_file_run keywords methods path
          (⟨some ⟨d, i, c0⟩, ts, w⟩ ::
            List.replicate ls.length ⟨some ⟨d, i, c0 ++ strConcat ls⟩, ts, w⟩)
          initState).incidents, inc.raw ≠ l) := by
  have hfirst : monitor_file_step keywords methods path ⟨some ⟨d, i, c0⟩, ts, w⟩
      initState =
      { initState with
          handle := some c0.length,
          currentId := some ⟨d, i, c0.length⟩,
          lastPos := c0.length,
          lineno := count_file_lines c0 } := by
    simp only [monitor_file_step, reopenPhase, initState, detectChange,
      get_file_id, readPhase, readlineAt_at_end]
  have hrun : (monitor_file_run keywords methods path
      (⟨some ⟨d, i, c0⟩, ts, w⟩ ::
        List.replicate ls.length ⟨some ⟨d, i, c0 ++ strConcat ls⟩, ts, w⟩)
      initState).incidents =
      expectedIncidents keywords path ts ls (count_file_lines c0) := by
    have hpeel : monitor_file_run keywords methods path
        (⟨some ⟨d, i, c0⟩, ts, w⟩ ::
          List.replicate ls.length ⟨some ⟨d, i, c0 ++ strConcat ls⟩, ts, w⟩)
        initState =
        monitor_file_run keywords methods path
          (List.replicate ls.length ⟨some ⟨d, i, c0 ++ strConcat ls⟩, ts, w⟩)
          ({ initState with
              handle := some c0.length,
              currentId := some ⟨d, i, c0.length⟩,
              lastPos := c0.length,
              lineno := count_file_lines c0 }) := by
      simp only [monitor_file_run, List.foldl_cons, hfirst]
    rw [hpeel]
    have hsz : c0.length ≤ (c0 ++ strConcat ls).length := by
      show _ ≤ (c0 ++ strConcat ls).data.length
      rw [String.data_append, List.length_append]
      exact Nat.le_add_right _ _
    have hdrop : (c0 ++ strConcat ls).data.drop c0.length =
        (strConcat ls).data := by
      rw [String.data_append]
      exact List.drop_left c0.data (strConcat ls).data
    have := monitor_file_run_steady keywords methods path ts w d i
      (c0 ++ strConcat ls) ls c0.length c0.length
      ({ initState with
          handle := some c0.length,
          currentId := some ⟨d, i, c0.length⟩,
          lastPos := c0.length,
          lineno := count_file_lines c0 })
      rfl hsz rfl hls hdrop
    simpa [initState] using this
  refine ⟨hrun, ?_, ?_, ?_⟩
  · rw [hrun]
    exact expectedIncidents_chain keywords path ts ls (count_file_lines c0)
  · intro j hj
    rw [hrun]
    exact expectedIncidents_count keywords path ts ls (count_file_lines c0) j hj
  · intro l hnone inc hmem heq
    rw [hrun] at hmem
    have := expectedIncidents_mem_matched keywords path ts ls
      (count_file_lines c0) inc hmem
    rw [heq, hnone] at this
    simp at this

/-- Witness for `appended_lines_classification`: two keywords, three
appended lines of which the first and third match. -/
theorem appended_lines_classification_witness :
    (monitor_file_run [("ERROR", "Critical"), ("WARN", "Warning")] ["console"]
        "a.log"
        (⟨some ⟨1, 2, "old\n"⟩, "T", Except.ok ()⟩ ::
          List.replicate (["x ERROR\n", "ok\n", "b WARN\n"] : List String).length
            ⟨some ⟨1, 2, "old\n" ++
              strConcat ["x ERROR\n", "ok\n", "b WARN\n"]⟩, "T", Except.ok ()⟩)
        initState).incidents =
      expectedIncidents [("ERROR", "Critical"), ("WARN", "Warning")] "a.log" "T"
        ["x ERROR\n", "ok\n", "b WARN\n"]
        (count_file_lines "old\n") :=
  (appended_lines_classification [("ERROR", "Critical"), ("WARN", "Warning")]
    ["console"] "a.log" "T" (Except.ok ()) 1 2 "old\n"
    ["x ERROR\n", "ok\n", "b WARN\n"] (by decide)).1

/-! ## C4: one alert per line, first matching keyword wins -/

/-- C4: on a line that contains two or more configured keywords, the keyword
loop emits exactly one incident — not one per matching keyword — whose
severity is that of the first matching keyword in keyword-table iteration
order (`keywords` is split as `pre ++ first :: post` with nothing in `pre`
matching), not the highest severity among the matches; the console alert
(when configured) fires exactly once and exactly one record is appended to
the alerts log. -/
theorem single_alert_per_line (keywords : List (String × String))
    (methods : List String) (path ts : String) (n : Nat) (line : String)
    (s : TailState) (k1 k2 : String × String)
    (h1 : k1 ∈ keywords) (_h2 : k2 ∈ keywords) (_hne : k1 ≠ k2)
    (hm1 : pyContains line k1.1 = true) (_hm2 : pyContains line k2.1 = true) :
    ∃ (first : String × String) (pre post : List (String × String)),
      keywords = pre ++ first :: post ∧
      (∀ q ∈ pre, pyContains line q.1 = false) ∧
      pyContains line first.1 = true ∧
      (processMatch keywords methods path ts (Except.ok ()) n line s).incidents =
        s.incidents ++ [⟨ts, first.2, path, n, line⟩] ∧
      (processMatch keywords methods path ts (Except.ok ()) n line s).console =
        s.console ++ (if methods.contains "console"
          then [alert_console first.2 line] else []) ∧
      (processMatch keywords methods path ts (Except.ok ()) n line s).alertsLog =
        s.alertsLog ++ [alertsLogRecord ts first.2 path n line] := by
  have hsome : (keywords.find? (fun q => pyContains line q.1)).isSome = true :=
    List.find?_isSome.mpr ⟨k1, h1, hm1⟩
  obtain ⟨first, hf⟩ := Option.isSome_iff_exists.mp hsome
  obtain ⟨hpf, pre, post, hsplit, hpre⟩ := List.find?_eq_some.mp hf
  refine ⟨first, pre, post, hsplit, ?_, hpf, ?_, ?_, ?_⟩
  · intro q hq
    have := hpre q hq
    simpa using this
  · rw [processMatch_incidents, hf]
  · rw [processMatch_console, hf]
  · rw [processMatch_alertsLog, hf]
    rfl

/-- Witness for `single_alert_per_line`: a line containing both `FAIL` and
`WARN`, both configured, yields one incident with the severity of `FAIL`
(first in table order). -/
theorem single_alert_per_line_witness :
    ∃ (first : String × String) (pre post : List (String × String)),
      [("FAIL", "Critical"), ("WARN", "Warning")] = pre ++ first :: post ∧
      (∀ q ∈ pre, pyContains "a FAIL WARN\n" q.1 = false) ∧
      pyContains "a FAIL WARN\n" first.1 = true ∧
      (processMatch [("FAIL", "Critical"), ("WARN", "Warning")] ["console"]
          "a.log" "T" (Except.ok ()) 7 "a FAIL WARN\n" initState).incidents =
        initState.incidents ++ [⟨"T", first.2, "a.log", 7, "a FAIL WARN\n"⟩] ∧
      (processMatch [("FAIL", "Critical"), ("WARN", "Warning")] ["console"]
          "a.log" "T" (Except.ok ()) 7 "a FAIL WARN\n" initState).console =
        initState.console ++ (if (["console"] : List String).contains "console"
          then [alert_console first.2 "a FAIL WARN\n"] else []) ∧
      (processMatch [("FAIL", "Critical"), ("WARN", "Warning")] ["console"]
          "a.log" "T" (Except.ok ()) 7 "a FAIL WARN\n" initState).alertsLog =
        initState.alertsLog ++
          [alertsLogRecord "T" first.2 "a.log" 7 "a FAIL WARN\n"] :=
  single_alert_per_line [("FAIL", "Critical"), ("WARN", "Warning")] ["console"]
    "a.log" "T" 7 "a FAIL WARN\n" initState ("FAIL", "Critical")
    ("WARN", "Warning") (by decide) (by decide) (by decide) (by decide)
    (by decide)

/-! ## C6: a failed incident write never stops the loop -/

/-- Everything `monitor_file` reads or decides on, i.e. every component of
the state except the persisted alerts-log file: the handle, the remembered
identity, the positions and counters, the emitted incidents and the console
lines. -/
def coreView (s : TailState) :
    Option Nat × Option FileId × Nat × Nat × List Incident × List String :=
  (s.handle, s.currentId, s.lastPos, s.lineno, s.incidents, s.console)

/-- One poll cycle's core outcome does not depend on the sink-write outcome,
nor on the current content of the alerts log. -/
theorem monitor_file_step_core (keywords : List (String × String))
    (methods : List String) (path : String) (fs : Option FsFile)
    (ts : String) (w w' : Except String Unit) (h : Option Nat)
    (cid : Option FileId) (lp ln : Nat) (inc : List Incident)
    (con al al' : List String) :
    coreView (monitor_file_step keywords methods path ⟨fs, ts, w⟩
        ⟨h, cid, lp, ln, inc, con, al⟩) =
      coreView (monitor_file_step keywords methods path ⟨fs, ts, w'⟩
        ⟨h, cid, lp, ln, inc, con, al'⟩) := by
  cases fs with
  | none => rfl
  | some f =>
    simp only [monitor_file_step]
    have hread : ∀ (s1 s1' : TailState), s1.handle = s1'.handle →
        s1.currentId = s1'.currentId → s1.lastPos = s1'.lastPos →
        s1.lineno = s1'.lineno → s1.incidents = s1'.incidents →
        s1.console = s1'.console →
        coreView (readPhase keywords methods path ts w f s1) =
          coreView (readPhase keywords methods path ts w' f s1') := by
      intro s1 s1' e1 e2 e3 e4 e5 e6
      cases hh : s1.handle with
      | none =>
        have hh' : s1'.handle = none := by rw [← e1, hh]
        simp [readPhase, hh, hh', coreView, e1, e2, e3, e4, e5, e6]
      | some pos =>
        have hh' : s1'.handle = some pos := by rw [← e1, hh]
        cases hr : readlineAt f.content pos with
        | none =>
          simp [readPhase, hh, hh', hr, coreView, e1, e2, e3, e4, e5, e6]
        | some pr =>
          obtain ⟨line, newPos⟩ := pr
          simp only [readPhase, hh, hh', hr]
          simp only [coreView, processMatch_handle, processMatch_currentId,
            processMatch_lastPos, processMatch_lineno, processMatch_incidents,
            processMatch_console]
          simp [e2, e4, e5, e6]
    cases hv : detectChange cid (some (get_file_id f)) <;>
      simp only [reopenPhase, hv] <;> exact hread _ _ rfl rfl rfl rfl rfl rfl

/-- A whole run's core outcome does not depend on the per-cycle sink-write
outcomes: replacing every cycle's write outcome by success leaves the
handle, identity, positions, counters, incidents and console output
unchanged. -/
theorem monitor_file_run_core (keywords : List (String × String))
    (methods : List String) (path : String) :
    ∀ (inputs : List StepIn) (s s' : TailState),
      coreView s = coreView s' →
      coreView (monitor_file_run keywords methods path inputs s) =
        coreView (monitor_file_run keywords methods path
          (inputs.map (fun i => ⟨i.fs, i.timestamp, Except.ok ()⟩)) s') := by
  intro inputs
  induction inputs with
  | nil => intro s s' hc; simpa [monitor_file_run] using hc
  | cons i rest ih =>
    intro s s' hc
    simp only [List.map_cons, monitor_file_run, List.foldl_cons]
    apply ih
    cases s with
    | mk h cid lp ln inc con al =>
      cases s' with
      | mk h' cid' lp' ln' inc' con' al' =>
        simp only [coreView, Prod.mk.injEq] at hc
        obtain ⟨e1, e2, e3, e4, e5, e6⟩ := hc
        subst e1; subst e2; subst e3; subst e4; subst e5; subst e6
        cases i with
        | mk fs ts w =>
          simpa using monitor_file_step_core keywords methods path
            fs ts w (Except.ok ()) h cid lp ln inc con al al'

/-- C6: an I/O failure of the alerts-log append is logged and swallowed —
`log_incident` returns normally with the alerts log unchanged and the error
recorded in the process log — and the monitoring loop is unaffected: a run
with arbitrarily failing sink writes reads, counts and classifies exactly
as the run in which every write succeeds (only the persisted alerts-log
lines differ). -/
theorem sink_failure_swallowed (keywords : List (String × String))
    (methods : List String) (path : String) (inputs : List StepIn)
    (s : TailState) (e : String) (log errlog : List String)
    (ts severity file : String) (lineno : Nat) (line : String) :
    log_incident (Except.error e) log errlog ts severity file lineno line =
      (log, errlog ++ ["Failed to write to alerts log: " ++ e]) ∧
    coreView (monitor_file_run keywords methods path inputs s) =
      coreView (monitor_file_run keywords methods path
        (inputs.map (fun i => ⟨i.fs, i.timestamp, Except.ok ()⟩)) s) :=
  ⟨rfl, monitor_file_run_core keywords methods path inputs s s rfl⟩

/-! ## C7: `main` monitors the configured files sequentially

`main` (monitor.py lines 309-320) loops `for log_file in log_files` and
calls `monitor_file(log_file, ...)` inline when `os.path.exists(log_file)`
holds, else logs "Log file not found, skipping" and moves on.  Since
`monitor_file`'s `while not shutdown_requested` loop returns only on
shutdown (or a fatal error), within an observation window in which no
shutdown is requested the first existing path's `monitor_file` consumes the
whole window and later paths are never reached — the code's own note at
lines 310-311 records that files are monitored sequentially. -/

/-- The `main` monitoring loop over a window of `cycles` poll cycles with no
shutdown request.  Each configured path comes with its environment (the
file at that path at each cycle of the window).  Paths that do not exist at
dispatch time are skipped; the first path that exists is monitored for the
entire window; the result pairs every configured path with the final
`monitor_file` state for it (`initState` for paths on which `monitor_file`
was never invoked inside the window). -/
def mainRunSeq (keywords : List (String × String)) (methods : List String)
    (cycles : Nat) : List (String × (Nat → StepIn)) → List (String × TailState)
  | [] => []
  | (p, env) :: rest =>
    if ((env 0).fs).isSome then
      (p, monitor_file_run keywords methods p ((List.range cycles).map env)
          initState) :: rest.map (fun q => (q.1, initState))
    else
      (p, initState) :: mainRunSeq keywords methods cycles rest

/-- Environment of a first path that exists at dispatch (an empty file) and
then disappears for the rest of the window: persistently unavailable. -/
def envFirstGone : Nat → StepIn := fun t =>
  ⟨if t = 0 then some ⟨1, 10, ""⟩ else none, "ts", Except.ok ()⟩

/-- Environment of a second path that exists throughout and receives an
appended `ERROR` line after the first cycle. -/
def envSecondGrows : Nat → StepIn := fun t =>
  ⟨some ⟨2, 20, if t = 0 then "" else "x ERROR y\n"⟩, "ts", Except.ok ()⟩

/-- Counterexample to C7: with two configured files, the first existing at
dispatch but persistently unavailable afterwards, the second file's
appended `ERROR` line produces no incident within the window — monitoring
of `b.log` never starts — even though running `monitor_file` on `b.log`'s
own environment over the same window records exactly one incident. -/
theorem independent_monitoring_counterexample :
    (mainRunSeq [("ERROR", "Critical")] ["console"] 6
        [("a.log", envFirstGone), ("b.log", envSecondGrows)]).map
        (fun q => (q.1, q.2.incidents)) =
      [("a.log", []), ("b.log", [])] ∧
    (monitor_file_run [("ERROR", "Critical")] ["console"] "b.log"
        ((List.range 6).map envSecondGrows) initState).incidents =
      [⟨"ts", "Critical", "b.log", 1, "x ERROR y\n"⟩] := by
  constructor <;> rfl

/-- C7 amended: monitoring is sequential.  When the first configured path
exists at dispatch, `monitor_file` on it consumes the entire no-shutdown
window and every later configured path finishes the window in the initial
state — no line appended to a later path is read, classified or recorded,
whatever its environment; when the first path does not exist at dispatch it
is skipped and the rest of the list is processed. -/
theorem sequential_monitoring (keywords : List (String × String))
    (methods : List String) (cycles : Nat) (p : String)
    (envp : Nat → StepIn) (rest : List (String × (Nat → StepIn))) :
    (((envp 0).fs).isSome = true →
      mainRunSeq keywords methods cycles ((p, envp) :: rest) =
        (p, monitor_file_run keywords methods p ((List.range cycles).map envp)
            initState) :: rest.map (fun q => (q.1, initState)) ∧
      ∀ pr ∈ (mainRunSeq keywords methods cycles ((p, envp) :: rest)).tail,
        pr.2.incidents = []) ∧
    ((envp 0).fs = none →
      mainRunSeq keywords methods cycles ((p, envp) :: rest) =
        (p, initState) :: mainRunSeq keywords methods cycles rest) := by
  constructor
  · intro hex
    have hmain : mainRunSeq keywords methods cycles ((p, envp) :: rest) =
        (p, monitor_file_run keywords methods p ((List.range cycles).map envp)
            initState) :: rest.map (fun q => (q.1, initState)) := by
      simp only [mainRunSeq, if_pos hex]
    refine ⟨hmain, ?_⟩
    intro pr hpr
    rw [hmain] at hpr
    simp only [List.tail_cons, List.mem_map] at hpr
    obtain ⟨q, _, rfl⟩ := hpr
    rfl
  · intro hnone
    have hex : ((envp 0).fs).isSome = false := by rw [hnone]; rfl
    simp only [mainRunSeq, hex, Bool.false_eq_true, if_false]

/-- Witness for `sequential_monitoring` at the counterexample's concrete
environments: the second file ends the window with no incidents. -/
theorem sequential_monitoring_witness :
    mainRunSeq [("ERROR", "Critical")] ["console"] 6
        [("a.log", envFirstGone), ("b.log", envSecondGrows)] =
      ("a.log", monitor_file_run [("ERROR", "Critical")] ["console"] "a.log"
          ((List.range 6).map envFirstGone) initState) ::
        [("b.log", envSecondGrows)].map (fun q => (q.1, initState)) ∧
    ∀ pr ∈ (mainRunSeq [("ERROR", "Critical")] ["console"] 6
        [("a.log", envFirstGone), ("b.log", envSecondGrows)]).tail,
      pr.2.incidents = [] :=
  (sequential_monitoring [("ERROR", "Critical")] ["console"] 6 "a.log"
    envFirstGone [("b.log", envSecondGrows)]).1 (by rfl)

/-! ## C5: paths that do not resolve at startup -/

/-- The per-path dispatch of `main` (monitor.py lines 312-320): each configured
path is paired with whether `os.path.exists` holds for it at dispatch time.
Returns the paths for which `monitor_file` is invoked and the warnings
logged.  A path failing the existence check is logged
`"Log file not found, skipping: <path>"` and `monitor_file` is never
invoked for it. -/
def mainDispatch : List (String × Bool) → List String × List String
  | [] => ([], [])
  | (p, ex) :: rest =>
    let r := mainDispatch rest
    if ex then (p :: r.1, r.2)
    else (r.1, ("Log file not found, skipping: " ++ p) :: r.2)

/-- A path is dispatched to `monitor_file` exactly when it exists at
startup. -/
theorem mainDispatch_invoked_iff (files : List (String × Bool)) (x : String) :
    x ∈ (mainDispatch files).1 ↔ (x, true) ∈ files := by
  induction files with
  | nil => simp [mainDispatch]
  | cons q rest ih =>
    obtain ⟨p, ex⟩ := q
    cases ex with
    | false => simp [mainDispatch, ih]
    | true => simp [mainDispatch, ih]

/-- Counterexample to C5: a configured path that does not resolve at
startup is not retried indefinitely — `main` logs the skip warning and
never invokes `monitor_file` for it, so monitoring of it can never begin,
even if the path later resolves.  (All retrying lives inside
`monitor_file`; a path absent from the invoked list is polled zero
times.) -/
theorem searching_state_counterexample :
    (mainDispatch [("a.log", false)]).1 = [] ∧
    "a.log" ∉ (mainDispatch [("a.log", false)]).1 ∧
    (mainDispatch [("a.log", false)]).2 =
      ["Log file not found, skipping: a.log"] := by
  refine ⟨rfl, ?_, rfl⟩
  simp [mainDispatch]

/-- C5 amended: a configured path that does not resolve to a file at
startup does not make the program error or exit — `main` logs a
"not found, skipping" warning — but the path is skipped permanently:
`monitor_file` is never invoked for it (unless the same path also appears
in the configuration marked as existing), so it is never retried and
monitoring of it never begins.  (Only a path that exists at startup and
disappears later is waited on, inside `monitor_file`.) -/
theorem missing_path_skipped (files : List (String × Bool)) (p : String)
    (h : (p, false) ∈ files) :
    ("Log file not found, skipping: " ++ p) ∈ (mainDispatch files).2 ∧
    ((p, true) ∉ files → p ∉ (mainDispatch files).1) := by
  constructor
  · induction files with
    | nil => simp at h
    | cons q rest ih =>
      obtain ⟨x, ex⟩ := q
      rcases List.mem_cons.mp h with hq | hrest
      · have hx : x = p ∧ ex = false := by
          have := hq.symm
          exact ⟨congrArg Prod.fst this, congrArg Prod.snd this⟩
        rcases hx with ⟨rfl, rfl⟩
        simp [mainDispatch]
      · have := ih hrest
        cases ex <;> simp [mainDispatch, this]
  · intro hnot
    rw [mainDispatch_invoked_iff]
    exact hnot

/-- Witness for `missing_path_skipped`: one existing and one missing path;
the missing one is warned about and never dispatched. -/
theorem missing_path_skipped_witness :
    ("Log file not found, skipping: " ++ "b.log") ∈
      (mainDispatch [("a.log", true), ("b.log", false)]).2 ∧
    (("b.log", true) ∉ [("a.log", true), ("b.log", false)] →
      "b.log" ∉ (mainDispatch [("a.log", true), ("b.log", false)]).1) :=
  missing_path_skipped [("a.log", true), ("b.log", false)] "b.log" (by decide)

/-! ## C8: configuration loading (`load_config`, monitor.py lines 42-90) -/

/-- The parsed `config.json` as handed to the validation code: each field
either absent or present with a value.  Python's falsiness test
`not config['...']` treats an empty list or dict like a missing field, so
`some []` triggers the same default as `none`.  The keyword dict is an
insertion-ordered association list with unique keys, matching Python's
dict iteration order. -/
structure RawConfig where
  log_files : Option (List String)
  keywords : Option (List (String × String))
  alert_methods : Option (List String)

/-- The validated configuration returned by `load_config`. -/
structure Config where
  log_files : List String
  keywords : List (String × String)
  alert_methods : List String
  deriving DecidableEq, Repr

/-- The list `valid_severities` (monitor.py line 80). -/
def valid_severities : List String :=
  ["Info", "Warning", "Critical"]

/-- The default keyword table (monitor.py lines 69-73), in insertion
order. -/
def default_keywords : List (String × String) :=
  [("ERROR", "Critical"), ("CRITICAL", "Critical"), ("WARNING", "Warning")]

/-- The validation in `load_config` (monitor.py lines 63-90): default the three
fields when missing or empty, then coerce every keyword severity outside
`valid_severities` to `"Warning"`. -/
def load_config (raw : RawConfig) : Config :=
  let lf := match raw.log_files with
    | none => ["logs/system.log"]
    | some [] => ["logs/system.log"]
    | some l => l
  let kw0 := match raw.keywords with
    | none => default_keywords
    | some [] => default_keywords
    | some l => l
  let am := match raw.alert_methods with
    | none => ["console"]
    | some [] => ["console"]
    | some l => l
  ⟨lf,
   kw0.map (fun q => if valid_severities.contains q.2 then q else (q.1, "Warning")),
   am⟩

/-- C8: missing or empty `log_files` becomes `["logs/system.log"]`; missing
or empty `keywords` becomes `{ERROR: Critical, CRITICAL: Critical,
WARNING: Warning}`; missing or empty `alert_methods` becomes
`["console"]`; every keyword whose severity is not `Info`, `Warning` or
`Critical` is coerced to `Warning`; consequently every severity in the
returned configuration belongs to the enum. -/
theorem load_config_spec (raw : RawConfig) :
    ((raw.log_files = none ∨ raw.log_files = some []) →
      (load_config raw).log_files = ["logs/system.log"]) ∧
    ((raw.keywords = none ∨ raw.keywords = some []) →
      (load_config raw).keywords = default_keywords) ∧
    ((raw.alert_methods = none ∨ raw.alert_methods = some []) →
      (load_config raw).alert_methods = ["console"]) ∧
    (∀ (kw : List (String × String)) (k s : String), raw.keywords = some kw →
      (k, s) ∈ kw → s ∉ valid_severities →
      (k, "Warning") ∈ (load_config raw).keywords) ∧
    (∀ q ∈ (load_config raw).keywords, q.2 ∈ valid_severities) := by
  obtain ⟨lf, kw, am⟩ := raw
  refine ⟨?_, ?_, ?_, ?_, ?_⟩
  · rintro (h | h) <;> simp only at h <;> subst h <;> rfl
  · rintro (h | h) <;> simp only at h <;> subst h <;> rfl
  · rintro (h | h) <;> simp only at h <;> subst h <;> rfl
  · intro kw0 k s hkw hmem hbad
    simp only at hkw
    subst hkw
    have hmap : (load_config ⟨lf, some kw0, am⟩).keywords =
        (match some kw0 with
          | none => default_keywords
          | some [] => default_keywords
          | some l => l).map
          (fun q : String × String => if valid_severities.contains q.2 then q
            else (q.1, "Warning")) := by
      rfl
    cases kw0 with
    | nil => simp at hmem
    | cons hd tl =>
      rw [hmap]
      simp only [List.mem_map]
      refine ⟨(k, s), hmem, ?_⟩
      have : valid_severities.contains s = false := by
        rw [← Bool.not_eq_true, List.elem_iff]
        exact hbad
      simp only [this, Bool.false_eq_true, if_false]
  · intro q hq
    have hshape : ∀ kw1 : List (String × String),
        ∀ r ∈ kw1.map (fun x => if valid_severities.contains x.2 then x
          else (x.1, "Warning")), r.2 ∈ valid_severities := by
      intro kw1 r hr
      simp only [List.mem_map] at hr
      obtain ⟨x, _, hx⟩ := hr
      by_cases hv : valid_severities.contains x.2
      · rw [if_pos hv] at hx
        subst hx
        exact List.elem_iff.mp hv
      · rw [if_neg hv] at hx
        subst hx
        simp [valid_severities]
    cases kw with
    | none => exact hshape default_keywords q hq
    | some kw0 =>
      cases kw0 with
      | nil => exact hshape default_keywords q hq
      | cons hd tl => exact hshape (hd :: tl) q hq

/-- Witness for `load_config_spec`: missing `log_files` and
`alert_methods`, one keyword with a severity outside the enum. -/
theorem load_config_spec_witness :
    (load_config ⟨none, some [("X", "Bogus"), ("Y", "Info")], none⟩).log_files =
      ["logs/system.log"] ∧
    (load_config ⟨none, some [("X", "Bogus"), ("Y", "Info")], none⟩).alert_methods =
      ["console"] ∧
    ("X", "Warning") ∈
      (load_config ⟨none, some [("X", "Bogus"), ("Y", "Info")], none⟩).keywords ∧
    ∀ q ∈ (load_config ⟨none, some [("X", "Bogus"), ("Y", "Info")], none⟩).keywords,
      q.2 ∈ valid_severities :=
  ⟨(load_config_spec ⟨none, some [("X", "Bogus"), ("Y", "Info")], none⟩).1
      (Or.inl rfl),
   (load_config_spec ⟨none, some [("X", "Bogus"), ("Y", "Info")], none⟩).2.2.1
      (Or.inl rfl),
   (load_config_spec ⟨none, some [("X", "Bogus"), ("Y", "Info")], none⟩).2.2.2.1
      [("X", "Bogus"), ("Y", "Info")] "X" "Bogus" rfl (by decide) (by decide),
   (load_config_spec ⟨none, some [("X", "Bogus"), ("Y", "Info")], none⟩).2.2.2.2⟩

/-! ## C9: the format of one alerts-log record -/

theorem digitChar_ne_newline (n : Nat) : Nat.digitChar n ≠ '\n' := by
  by_cases h0 : n = 0
  · subst h0; decide
  by_cases h1 : n = 1
  · subst h1; decide
  by_cases h2 : n = 2
  · subst h2; decide
  by_cases h3 : n = 3
  · subst h3; decide
  by_cases h4 : n = 4
  · subst h4; decide
  by_cases h5 : n = 5
  · subst h5; decide
  by_cases h6 : n = 6
  · subst h6; decide
  by_cases h7 : n = 7
  · subst h7; decide
  by_cases h8 : n = 8
  · subst h8; decide
  by_cases h9 : n = 9
  · subst h9; decide
  by_cases h10 : n = 10
  · subst h10; decide
  by_cases h11 : n = 11
  · subst h11; decide
  by_cases h12 : n = 12
  · subst h12; decide
  by_cases h13 : n = 13
  · subst h13; decide
  by_cases h14 : n = 14
  · subst h14; decide
  by_cases h15 : n = 15
  · subst h15; decide
  simp only [Nat.digitChar, if_neg h0, if_neg h1, if_neg h2, if_neg h3,
    if_neg h4, if_neg h5, if_neg h6, if_neg h7, if_neg h8, if_neg h9,
    if_neg h10, if_neg h11, if_neg h12, if_neg h13, if_neg h14, if_neg h15]
  decide

theorem toDigitsCore_ne_newline (b : Nat) :
    ∀ (fuel n : Nat) (ds : List Char), (∀ c ∈ ds, c ≠ '\n') →
      ∀ c ∈ Nat.toDigitsCore b fuel n ds, c ≠ '\n' := by
  intro fuel
  induction fuel with
  | zero =>
    intro n ds hds c hc
    simp only [Nat.toDigitsCore] at hc
    exact hds c hc
  | succ fuel ih =>
    intro n ds hds c hc
    have hstep : Nat.toDigitsCore b (fuel + 1) n ds =
        (if n / b = 0 then (n % b).digitChar :: ds
         else Nat.toDigitsCore b fuel (n / b) ((n % b).digitChar :: ds)) := by
      simp [Nat.toDigitsCore]
    rw [hstep] at hc
    have hcons : ∀ x ∈ (n % b).digitChar :: ds, x ≠ '\n' := by
      intro x hx
      rcases List.mem_cons.mp hx with rfl | hx
      · exact digitChar_ne_newline _
      · exact hds x hx
    by_cases hz : n / b = 0
    · rw [if_pos hz] at hc
      exact hcons c hc
    · rw [if_neg hz] at hc
      exact ih (n / b) ((n % b).digitChar :: ds) hcons c hc

/-- The decimal representation of a natural number contains no newline. -/
theorem nat_repr_ne_newline (n : Nat) : '\n' ∉ (Nat.repr n).data := by
  intro h
  exact toDigitsCore_ne_newline 10 (n + 1) n [] (by simp) '\n' h rfl

/-- A string whose characters end in a newline satisfies the
`endswith` test. -/
theorem endsWithNewline_of_concat (line : String) (body : List Char)
    (h : line.data = body ++ ['\n']) : endsWithNewline line = true := by
  simp [endsWithNewline, h, List.getLast?_concat]

/-- A string containing no newline fails the `endswith` test. -/
theorem endsWithNewline_of_no_newline (line : String)
    (h : '\n' ∉ line.data) : endsWithNewline line = false := by
  cases hg : line.data.getLast? with
  | none => simp [endsWithNewline, hg]
  | some c =>
    have hsplit : line.data.dropLast ++ [c] = line.data :=
      List.dropLast_append_getLast? _ (by simpa using hg)
    have hcne : c ≠ '\n' := by
      intro hcc
      apply h
      rw [← hsplit, hcc]
      simp
    simp [endsWithNewline, hg, hcne]

/-- C9: the record appended for a matched line is exactly the one-line text
`[<timestamp>] [<severity>] <source_path>:<line_number> ` followed by the
raw line, with the raw line's trailing newline preserved when present and a
newline appended when absent; given that the raw line (one `readline()`
result) has a newline at most as its final character and the timestamp,
severity and path contain none, the record contains exactly one newline and
it is the final character — the record occupies exactly one
newline-terminated line of the alerts log. -/
theorem incident_record_format (ts severity file : String) (lineno : Nat)
    (line : String) (hts : '\n' ∉ ts.data) (hsev : '\n' ∉ severity.data)
    (hfile : '\n' ∉ file.data)
    (hline : ∃ body : List Char, '\n' ∉ body ∧
      (line.data = body ∨ line.data = body ++ ['\n'])) :
    (endsWithNewline line = true →
      alertsLogRecord ts severity file lineno line =
        "[" ++ ts ++ "] [" ++ severity ++ "] " ++ file ++ ":" ++
          Nat.repr lineno ++ " " ++ line) ∧
    (endsWithNewline line = false →
      alertsLogRecord ts severity file lineno line =
        "[" ++ ts ++ "] [" ++ severity ++ "] " ++ file ++ ":" ++
          Nat.repr lineno ++ " " ++ line ++ "\n") ∧
    (alertsLogRecord ts severity file lineno line).data.count '\n' = 1 ∧
    (alertsLogRecord ts severity file lineno line).data.getLast? =
      some '\n' := by
  have hcount0 : ("[" ++ ts ++ "] [" ++ severity ++ "] " ++ file ++ ":" ++
      Nat.repr lineno ++ " ").data.count '\n' = 0 := by
    simp only [String.data_append, List.count_append,
      List.count_eq_zero.mpr hts, List.count_eq_zero.mpr hsev,
      List.count_eq_zero.mpr hfile,
      List.count_eq_zero.mpr (nat_repr_ne_newline lineno)]
    decide
  obtain ⟨body, hbody, hcase⟩ := hline
  rcases hcase with hcase | hcase
  · have hend : endsWithNewline line = false :=
      endsWithNewline_of_no_newline line (by rw [hcase]; exact hbody)
    have hrecord : alertsLogRecord ts severity file lineno line =
        "[" ++ ts ++ "] [" ++ severity ++ "] " ++ file ++ ":" ++
          Nat.repr lineno ++ " " ++ line ++ "\n" := by
      simp [alertsLogRecord, hend]
    refine ⟨fun h => by rw [h] at hend; exact absurd hend (by simp),
      fun _ => hrecord, ?_, ?_⟩
    · rw [hrecord]
      simp only [String.data_append, List.count_append] at hcount0 ⊢
      rw [List.count_eq_zero.mpr (hcase ▸ hbody : '\n' ∉ line.data)]
      have hone : List.count '\n' ['\n'] = 1 := rfl
      omega
    · rw [hrecord, String.data_append]
      rw [show ("\n" : String).data = ['\n'] from rfl]
      exact List.getLast?_concat _
  · have hend : endsWithNewline line = true :=
      endsWithNewline_of_concat line body hcase
    have hrecord : alertsLogRecord ts severity file lineno line =
        "[" ++ ts ++ "] [" ++ severity ++ "] " ++ file ++ ":" ++
          Nat.repr lineno ++ " " ++ line := by
      simp [alertsLogRecord, hend, String.append_empty]
    refine ⟨fun _ => hrecord,
      fun h => by rw [h] at hend; exact absurd hend (by simp), ?_, ?_⟩
    · rw [hrecord]
      simp only [String.data_append, List.count_append] at hcount0 ⊢
      rw [show line.data.count '\n' = 1 from by
        rw [hcase]
        simp [List.count_append, List.count_eq_zero.mpr hbody]]
      omega
    · rw [hrecord, String.data_append, hcase, ← List.append_assoc]
      exact List.getLast?_concat _

/-- Witness for `incident_record_format` at concrete record fields, once
with a trailing newline on the raw line and once without. -/
theorem incident_record_format_witness :
    alertsLogRecord "2024-01-01 10:00:00" "Critical" "a.log" 3 "boom\n" =
      "[" ++ "2024-01-01 10:00:00" ++ "] [" ++ "Critical" ++ "] " ++
        "a.log" ++ ":" ++ Nat.repr 3 ++ " " ++ "boom\n" ∧
    (alertsLogRecord "2024-01-01 10:00:00" "Critical" "a.log" 3
      "boom\n").data.count '\n' = 1 ∧
    alertsLogRecord "T" "Warning" "b.log" 9 "no newline" =
      "[" ++ "T" ++ "] [" ++ "Warning" ++ "] " ++ "b.log" ++ ":" ++
        Nat.repr 9 ++ " " ++ "no newline" ++ "\n" ∧
    (alertsLogRecord "T" "Warning" "b.log" 9
      "no newline").data.getLast? = some '\n' := by
  have h1 := incident_record_format "2024-01-01 10:00:00" "Critical" "a.log" 3
    "boom\n" (by decide) (by decide) (by decide)
    ⟨['b', 'o', 'o', 'm'], by decide, Or.inr (by decide)⟩
  have h2 := incident_record_format "T" "Warning" "b.log" 9 "no newline"
    (by decide) (by decide) (by decide)
    ⟨"no newline".data, by decide, Or.inl rfl⟩
  exact ⟨h1.1 (by decide), h1.2.2.1, h2.2.1 (by decide), h2.2.2.2⟩

/-! ## C10: the alerts endpoint (`get_alerts`, dashboard.py lines 67-83) -/

/-- Endpoint `get_alerts` (dashboard.py lines 67-83) as a pure function of whether
the alerts log exists and of its content (the endpoint performs no writes):
when the file exists, iterate its lines, strip each of surrounding
whitespace, skip lines that are empty after stripping, and return the
collected list together with its length as the count; when the file does
not exist, return the empty list and count 0. -/
def get_alerts (fileExists : Bool) (content : String) : List String × Nat :=
  let alerts := if fileExists then
      (pyLines content).filterMap (fun l =>
        if (pyStrip l).isEmpty then none else some (pyStrip l))
    else []
  (alerts, alerts.length)

/-- Counterexample to C10: for the two-line alerts-log content
`" \nA\n"`, the returned list is `["A"]` — neither line of the file appears
in it: the whitespace-only line is omitted and the other line is returned
stripped of its newline. -/
theorem alerts_endpoint_counterexample :
    pyLines " \nA\n" = [" \n", "A\n"] ∧
    get_alerts true " \nA\n" = (["A"], 1) ∧
    " \n" ∉ (get_alerts true " \nA\n").1 ∧
    "A\n" ∉ (get_alerts true " \nA\n").1 := by
  refine ⟨rfl, rfl, by decide, by decide⟩

/-- C10 amended: the alerts endpoint is a pure function of the incident
log's content (no writes); it returns the file's lines each stripped of
surrounding whitespace with the lines that are empty after stripping
omitted, together with a count equal to the length of the returned list;
every line of the file that is not whitespace-only appears (stripped) in
the returned list, and a missing file yields the empty list. -/
theorem alerts_endpoint_spec (fileExists : Bool) (content : String) :
    (get_alerts fileExists content).2 =
      (get_alerts fileExists content).1.length ∧
    (get_alerts true content).1 =
      ((pyLines content).map pyStrip).filter (fun s => !s.isEmpty) ∧
    (∀ l ∈ pyLines content, (pyStrip l).isEmpty = false →
      pyStrip l ∈ (get_alerts true content).1) ∧
    (get_alerts false content).1 = [] := by
  have hfm : ∀ ls : List String,
      ls.filterMap (fun l =>
        if (pyStrip l).isEmpty then none else some (pyStrip l)) =
      (ls.map pyStrip).filter (fun s => !s.isEmpty) := by
    intro ls
    induction ls with
    | nil => rfl
    | cons l rest ih =>
      cases he : (pyStrip l).isEmpty <;>
        simp [List.filterMap_cons, he, ih]
  refine ⟨rfl, hfm (pyLines content), ?_, rfl⟩
  intro l hl he
  show pyStrip l ∈ (pyLines content).filterMap
    (fun x => if (pyStrip x).isEmpty then none else some (pyStrip x))
  exact List.mem_filterMap.mpr ⟨l, hl, by simp [he]⟩

/-- Witness for `alerts_endpoint_spec`: on content `" \nA\n"` the count
equals the list's length and the stripped non-empty line `"A"` is
returned. -/
theorem alerts_endpoint_spec_witness :
    (get_alerts true " \nA\n").2 = (get_alerts true " \nA\n").1.length ∧
    pyStrip "A\n" ∈ (get_alerts true " \nA\n").1 :=
  ⟨(alerts_endpoint_spec true " \nA\n").1,
   (alerts_endpoint_spec true " \nA\n").2.2.1 "A\n" (by decide) (by decide)⟩

end LogWatcher
